import Mathlib

/-!
# Verification of the yex-lang front end and value runtime

This file gives a shallow embedding, in Lean 4, of the parts of the
`Pietro222222/yex-lang` repository that the specification claims talk about:

* the tagged runtime value model (`src/vm/src/literal/mod.rs`),
* the persistent list (`src/vm/src/literal/list/mod.rs`),
* the mutable cell (`src/vm/src/literal/mutable/mod.rs` and its methods),
* the string `split` native-method bridge (`src/vm/src/literal/str/methods.rs`),
* the operator lowering (`src/front/src/parser/ast.rs`),
* the recursive-descent expression parser (`src/front/src/parser/mod.rs`),

and proves or refutes each claim against this embedding.

Modelling conventions:

* Rust `f64` is modelled by `Yex.F64`: either `nan` or a finite value carried
  by a rational number.  The embedding captures exactly the `f64` behaviour
  the claims depend on: `NaN` compares unequal to everything (including
  itself) under `==`, and `partial_cmp` returns `None` as soon as one operand
  is `NaN`.  The textual rendering of finite numbers (`f64::to_string`) is
  abstracted by a concrete Lean function.
* `GcRef<T>` (whose source lives outside the provided files) is a shared,
  cheaply clonable reference.  Where only the value matters (strings, list
  nodes) it is modelled transparently; for the `Mutable` cell, whose Rust
  struct holds a raw `*mut Value`, the pointer is modelled as an address
  (`Nat`) into an explicit store that the bridge functions thread.
* The payload types `Fn`, `YexType`, `Instance`, `Table`, `Symbol` are
  declared in repository files that are not part of `src/`; they are
  modelled from the spec (§3, §4.6): a `Symbol` is an interned identifier
  compared by its integer key, a function carries its arity, a type and an
  instance carry their declared name; each also carries an identity key
  standing for the heap identity of the `GcRef`.
* Rust machine panics (indexing an argument `Vec` out of bounds, exhausting
  the token stream) are modelled by an explicit `panicked` error value, kept
  separate from the `raise!`d interpreter errors which carry their message.
-/

namespace Yex

/-! ## The `f64` model -/

/-- Model of Rust `f64` for the purposes of equality and comparison:
either `NaN` or a finite value (carried by a rational).  Signed zeros and
infinities are not distinguished; no claim depends on them. -/
inductive F64 where
  | nan
  | fin (q : ℚ)
  deriving DecidableEq

/-- Rust `f64::eq` (IEEE 754 `==`): `NaN` is unequal to everything,
finite values compare numerically. -/
def feq : F64 → F64 → Bool
  | .fin a, .fin b => a == b
  | _, _ => false

/-- Rust `f64::partial_cmp`: `None` iff one operand is `NaN`. -/
def fpartialCmp : F64 → F64 → Option Ordering
  | .fin a, .fin b => some (compare a b)
  | _, _ => none

/-- Abstraction of `f64::to_string`.  The exact decimal rendering of finite
doubles is not reproduced; the claims only need renderings to exist. -/
def fShow : F64 → String
  | .nan => "NaN"
  | .fin q => toString q.num ++ "/" ++ toString q.den

/-! ## Payload types of the tagged union

`Symbol`, `Fn`, `YexType`, `Instance` and `Table` are declared in files of
the repository that were not provided (`symbol.rs`, `fun.rs`, `yextype.rs`,
`instance.rs`, `table.rs`).  They are modelled from the spec (§3):
a symbol is "interned identifier, compared by identity/integer key";
a function is a GC reference "to a callable object carrying its arity";
types/instances render with their declared name (§4.3 Display).  The `id`
fields stand for the identity of the underlying heap object, so equality of
these modelled payloads is the spec's "equality-by-value-or-identity". -/

/-- Modelled from the spec: interned identifier compared by integer key. -/
abbrev Symbol := Nat

/-- Modelled from the spec: callable object carrying its arity (`fun.rs` is
not part of the provided sources); `id` is the heap identity. -/
structure Fn where
  id : Nat
  arity : Nat
  deriving DecidableEq

/-- Modelled from the spec: named user type (`yextype.rs` not provided). -/
structure YexType where
  id : Nat
  name : String
  deriving DecidableEq

/-- Modelled from the spec: instance pairing a type with its state
(`instance.rs` not provided); only the type name is needed for display. -/
structure Instance where
  id : Nat
  tyName : String
  deriving DecidableEq

/-- Modelled from the spec: key-ordered associative collection
(`table.rs` not provided), abstracted by its heap identity. -/
structure Table where
  id : Nat
  deriving DecidableEq

/-- The `Mutable` struct of `src/vm/src/literal/mutable/mod.rs`:
`pub struct Mutable { ptr: *mut Value }`.  The raw pointer is modelled as an
address into an explicit store (a `List` of values); `Box::into_raw` becomes
allocation at the end of the store. -/
structure Mutable where
  ptr : Nat
  deriving DecidableEq

/-- The derived `Clone` for `Mutable` copies the raw pointer. -/
def mClone (m : Mutable) : Mutable := ⟨m.ptr⟩

/-! ## The `Value` enum (`src/vm/src/literal/mod.rs`) -/

/-- The runtime value tagged union.  Constructor names are the lower-case
versions of the Rust variants (`instance` and some others collide with Lean
keywords, hence `inst`, `typ`).  The yex list variant is carried as a Lean
`List Value`: structurally, a yex `List` is a (possibly shared) chain of
nodes each holding one `Value`; its structural content is exactly a sequence
of values.  (Sharing itself is modelled separately, with an explicit node
store, for the persistence claim.) -/
inductive Value where
  /-- `Num(f64)` -/
  | num (n : F64)
  /-- `Str(GcRef<String>)` -/
  | str (s : String)
  /-- `Sym(Symbol)` -/
  | sym (s : Symbol)
  /-- `Bool(bool)` -/
  | bool (b : Bool)
  /-- `Fn(GcRef<Fn>)` -/
  | fn (f : Fn)
  /-- `Table(Table)` -/
  | table (t : Table)
  /-- `List(List)` -/
  | list (xs : List Value)
  /-- `Type(GcRef<YexType>)` -/
  | typ (t : YexType)
  /-- `Mutable(GcRef<Mutable>)` -/
  | mutable (m : Mutable)
  /-- `Instance(GcRef<Instance>)` -/
  | inst (i : Instance)
  /-- `Nil` -/
  | nil

/-- The discriminant (tag) of a value; used to state cross-tag facts. -/
def tagOf : Value → Nat
  | .num _ => 0
  | .str _ => 1
  | .sym _ => 2
  | .bool _ => 3
  | .fn _ => 4
  | .table _ => 5
  | .list _ => 6
  | .typ _ => 7
  | .mutable _ => 8
  | .inst _ => 9
  | .nil => 10

/-- Is the value a `Num`? -/
def isNum : Value → Bool
  | .num _ => true
  | _ => false

mutual
/-- The `#[derive(PartialEq)]` equality of `Value`: same variant compares
payloads, different variants are unequal.  `Num` uses `f64` equality
(`feq`); `Str` compares the referenced strings; `List` is structural
(recursive element equality, per the derived `PartialEq` of `List`/`Node`);
`Mutable` compares raw pointers (the derived `PartialEq` on `ptr`);
the payloads whose sources are missing compare per their model above. -/
def valueEq : Value → Value → Bool
  | .num a, .num b => feq a b
  | .str a, .str b => a == b
  | .sym a, .sym b => a == b
  | .bool a, .bool b => a == b
  | .fn a, .fn b => a == b
  | .table a, .table b => a == b
  | .list a, .list b => valueListEq a b
  | .typ a, .typ b => a == b
  | .mutable a, .mutable b => a.ptr == b.ptr
  | .inst a, .inst b => a == b
  | .nil, .nil => true
  | _, _ => false

/-- Element-wise equality of yex lists (derived `PartialEq` of the node
chain): equal length and pointwise `valueEq`. -/
def valueListEq : List Value → List Value → Bool
  | [], [] => true
  | a :: as_, b :: bs => valueEq a b && valueListEq as_ bs
  | _, _ => false
end

mutual
/-- A value contains no `NaN` number (also inside lists). -/
def nanFree : Value → Bool
  | .num .nan => false
  | .list xs => nanFreeList xs
  | _ => true

/-- All elements of the list are `NaN`-free. -/
def nanFreeList : List Value → Bool
  | [] => true
  | x :: xs => nanFree x && nanFreeList xs
end

mutual
/-- The `Display` impl for `Value`.  Renderings of the payloads whose
sources are missing are modelled (symbols render their key, tables render
as a fixed placeholder); a `Mutable`'s content lives in the store, which
`Display` cannot consult here, so it is elided.  No claim depends on those
renderings beyond their existence. -/
def display : Value → String
  | .fn f => "<fun(" ++ toString f.arity ++ ")>"
  | .nil => "nil"
  | .list xs => "[" ++ displayList xs ++ "]"
  | .str s => "\"" ++ s ++ "\""
  | .sym s => toString s
  | .num n => fShow n
  | .typ t => "<type(" ++ t.name ++ ")>"
  | .inst i => "<instance(" ++ i.tyName ++ ")>"
  | .table _ => "<table>"
  | .mutable _ => "Mutable<" ++ "..." ++ ">"
  | .bool b => toString b

/-- The element rendering of the `Display` impl for `List`: elements
separated by `", "` (every element but the last is followed by a comma). -/
def displayList : List Value → String
  | [] => ""
  | [x] => display x
  | x :: xs => display x ++ ", " ++ displayList xs
end

/-! ## `Value::ord_cmp` (`src/vm/src/literal/mod.rs`, lines 108–118) -/

/-- `Value::ord_cmp`: only `Num`/`Num` compares; it returns the result of
`f64::partial_cmp`, raising `"Error applying cmp"` when that is `None`
(i.e. a `NaN` is involved); every other tag pair raises a type error built
from both operand renderings.  `raise!`d errors are modelled as `.error`
carrying the formatted message. -/
def ordCmp (l r : Value) : Except String Ordering :=
  match l, r with
  | .num a, .num b =>
    match fpartialCmp a b with
    | some ord => .ok ord
    | none => .error "Error applying cmp"
  | l, r => .error ("Can't compare `" ++ display l ++ "` and `" ++ display r ++ "`")

/-! ## The persistent list, structurally
(`src/vm/src/literal/list/mod.rs`)

The structural content of a yex `List` (the sequence of element values,
front to back) is a Lean `List Value`; each Rust method is mirrored on that
representation.  Sharing of tails is modelled separately below. -/

/-- `List::is_empty`: the head link is `None`. -/
def lIsEmpty (l : List Value) : Bool := l.isEmpty

/-- `List::prepend`: a new node holding `elem` whose `next` is the old
head. -/
def lPrepend (l : List Value) (elem : Value) : List Value := elem :: l

/-- `List::tail`: the head node's `next` link, or the empty list. -/
def lTail : List Value → List Value
  | [] => []
  | _ :: t => t

/-- `List::head`: the head node's element, if any. -/
def lHead : List Value → Option Value
  | [] => none
  | x :: _ => some x

/-- `List::index`: at index 0 return `head().unwrap_or(nil)`; otherwise
recurse into the tail with `index - 1` unless the tail is empty, in which
case return `nil` (the `index == 0` test becomes the `Nat` pattern split). -/
def lIndex (l : List Value) : Nat → Value
  | 0 => (lHead l).getD Value.nil
  | i + 1 =>
    let t := lTail l
    if lIsEmpty t then Value.nil
    else lIndex t i

/-- `List::len`: count the nodes. -/
def lLen : List Value → Nat
  | [] => 0
  | _ :: t => lLen t + 1

/-- `List::to_vec`: walk from the head, pushing each element. -/
def lToVec : List Value → List Value
  | [] => []
  | x :: t => x :: lToVec t

/-- Loop body of `List::rev`: walk the nodes, prepending each element to an
accumulator list. -/
def lRevAux : List Value → List Value → List Value
  | [], acc => acc
  | x :: t, acc => lRevAux t (lPrepend acc x)

/-- `List::rev`: reverse by repeated prepend, starting from the empty
list. -/
def lRev (l : List Value) : List Value := lRevAux l []

/-- `FromIterator<Value> for List`: start from the empty list and prepend
each item in iteration order. -/
def lFromIter (items : List Value) : List Value :=
  items.foldl (fun list item => lPrepend list item) []

/-! ## The persistent list, with explicit node store

For the persistence/structural-sharing claim the `GcRef<Node>` links are
made explicit: a store is a list of nodes, an address is an index into it,
and `GcRef::new` is allocation at the end of the store.  A list value is a
head link (`Option Nat`).  The allocator only ever hands out links to
already-existing nodes, so in every reachable store each node's `next` link
points strictly below the node's own address; `HeapWf` captures that. -/

/-- A list node: `elem` plus `next` link (`Option<GcRef<Node>>`). -/
structure HNode where
  elem : Value
  next : Option Nat

/-- A node used for out-of-range `getD` reads; never reachable under
`HeapWf` plus a valid link. -/
def dfltNode : HNode := ⟨Value.nil, none⟩

/-- Does node `nd`, stored at address `i`, point strictly downwards? -/
def nodeOkB (i : Nat) (nd : HNode) : Bool :=
  match nd.next with
  | none => true
  | some j => decide (j < i)

/-- Store well-formedness: every node's `next` link points strictly below
its own address.  Holds for every store built by `prependH` allocations. -/
def HeapWf (h : List HNode) : Prop :=
  ∀ i, i < h.length → nodeOkB i (h.getD i dfltNode) = true

instance (h : List HNode) : Decidable (HeapWf h) :=
  Nat.decidableBallLT h.length _

/-- A link is valid for a store when it is either empty or an address
inside the store. -/
def LinkValid (h : List HNode) : Option Nat → Prop
  | none => True
  | some a => a < h.length

/-- The sequence of elements reachable from a link, reading nodes from the
store; `fuel` bounds the traversal (under `HeapWf` addresses strictly
decrease, so `h.length + 1` fuel always suffices). -/
def denoteFuel : Nat → List HNode → Option Nat → List Value
  | 0, _, _ => []
  | _ + 1, _, none => []
  | fuel + 1, h, some a =>
    match h.get? a with
    | none => []
    | some nd => nd.elem :: denoteFuel fuel h nd.next

/-- The structural content of the list with head link `l` in store `h`. -/
def denote (h : List HNode) (l : Option Nat) : List Value :=
  denoteFuel (h.length + 1) h l

/-- `List::prepend` on the store model: `GcRef::new(Node { elem, next:
self.head.clone() })` allocates a fresh node whose `next` is the old head;
the new list's head is the fresh address.  The receiver's link is untouched
(prepend takes `&self`). -/
def prependH (h : List HNode) (l : Option Nat) (elem : Value) :
    List HNode × Option Nat :=
  (h ++ [⟨elem, l⟩], some h.length)

/-- `List::tail` on the store model: the head node's `next` link (or `None`
when the list is empty / the address is absent). -/
def tailH (h : List HNode) : Option Nat → Option Nat
  | none => none
  | some a =>
    match h.get? a with
    | none => none
    | some nd => nd.next

/-! ## Rust `str::trim` and `str::split`

Host (standard library) string operations used by the split bridge,
modelled on `List Char` in the style of the Rust-to-Lean model libraries.
`trim` strips leading and trailing whitespace (the ASCII whitespace
characters stand in for Rust's Unicode `char::is_whitespace`; no claim
involves exotic whitespace).  `split` by a nonempty pattern yields the
(possibly empty) segments between leftmost non-overlapping occurrences of
the pattern; an empty pattern yields an empty segment, every character, and
a final empty segment, as in Rust. -/

/-- ASCII approximation of `char::is_whitespace`. -/
def isWsp (c : Char) : Bool := c == ' ' || c == '\t' || c == '\n' || c == '\r'

/-- `str::trim` on character lists. -/
def trimChars (s : List Char) : List Char :=
  (((s.dropWhile isWsp).reverse).dropWhile isWsp).reverse

/-- `str::split` by the nonempty pattern `p0 :: ps`: scan the subject,
emitting the accumulated segment at each pattern occurrence.  The scan
consumes at least one character per step, so `fuel := s.length` always
suffices; the recursion is structural on the fuel so that concrete calls
evaluate definitionally (the fuel-exhaustion arm is unreachable when called
through `rustSplit`). -/
def splitAux (p0 : Char) (ps : List Char) :
    Nat → List Char → List Char → List (List Char)
  | _, [], acc => [acc.reverse]
  | 0, _ :: _, acc => [acc.reverse]
  | fuel + 1, c :: rest, acc =>
    if (p0 :: ps).isPrefixOf (c :: rest) then
      acc.reverse :: splitAux p0 ps fuel (rest.drop ps.length) []
    else
      splitAux p0 ps fuel rest (c :: acc)

/-- `str::split` on strings: the empty pattern splits at every character
boundary (with leading and trailing empty segments); a nonempty pattern
splits at its occurrences. -/
def rustSplit (s pat : String) : List String :=
  match pat.data with
  | [] => "" :: (s.data.map fun c => String.mk [c]) ++ [""]
  | p0 :: ps => (splitAux p0 ps s.data.length s.data []).map String.mk

/-- `str::trim` on strings. -/
def rustTrim (s : String) : String := String.mk (trimChars s.data)

/-! ## The native-method bridge
(`src/vm/src/literal/str/methods.rs`, `src/vm/src/literal/mutable/methods.rs`)

Bridges receive the argument vector and return `InterpretResult<Value>`;
`raise!`d type errors carry their message, and an out-of-bounds `args[i]`
(a Rust panic, not a `raise!`) is the distinguished `panicked` outcome.
The mutable-cell bridges additionally thread the explicit store that models
raw memory. -/

/-- Failure outcomes of a bridge call. -/
inductive BridgeFail where
  | raised (msg : String)
  | panicked
  deriving DecidableEq

/-- `TryGet<String>`: succeed on `Str`, otherwise raise
`"expected String, found {value}"`. -/
def tryGetString : Value → Except String String
  | .str s => .ok s
  | e => .error ("expected String, found " ++ display e)

/-- `TryGet<Mutable>`: succeed on `Mutable` (copying the pointer),
otherwise raise `"expected Mutable, found {value}"`. -/
def tryGetMutable : Value → Except String Mutable
  | .mutable m => .ok m
  | e => .error ("expected Mutable, found " ++ display e)

/-- The filter of the split bridge: keep the `Str` values whose content is
nonempty (`get::<String>(x).unwrap() != ""`; every element is a `Str` by
construction, so the `unwrap` cannot panic — a non-`Str` is mapped to
`false` here only to make the function total). -/
def strNonempty : Value → Bool
  | .str t => t != ""
  | _ => false

/-- The string `split` bridge (`str/methods.rs`, lines 3–10): extract the
subject and the separator as strings, trim the subject, split it, wrap each
segment as a `Str`, drop the empty segments, `collect` into a yex list
(which prepends, i.e. reverses), then `rev` the result. -/
def splitBridge (args : List Value) : Except BridgeFail Value :=
  match args.get? 0 with
  | none => .error .panicked
  | some a0 =>
    match tryGetString a0 with
    | .error m => .error (.raised m)
    | .ok string =>
      match args.get? 1 with
      | none => .error .panicked
      | some a1 =>
        match tryGetString a1 with
        | .error m => .error (.raised m)
        | .ok pat =>
          .ok (.list (lRev (lFromIter
            (((rustSplit (rustTrim string) pat).map Value.str).filter
              strNonempty))))

/-! ### Mutable-cell primitives (`mutable/mod.rs`, `mutable/methods.rs`)

The store is a `List Value`; `Mutable::new` is `Box::into_raw` =
allocation at the end of the store, `get` reads the slot, `set` overwrites
it in place. -/

/-- `Mutable::new(value)`: allocate a fresh slot holding `value`, returning
the grown store and the cell (its pointer). -/
def mutNew (store : List Value) (value : Value) : List Value × Mutable :=
  (store ++ [value], ⟨store.length⟩)

/-- `Mutable::get`: read the slot behind the pointer (`None` models a read
through a dangling pointer, impossible for allocator-produced cells). -/
def mutGet (store : List Value) (m : Mutable) : Option Value :=
  store.get? m.ptr

/-- `Mutable::set`: overwrite the slot behind the pointer. -/
def mutSet (store : List Value) (m : Mutable) (value : Value) : List Value :=
  store.set m.ptr value

/-- The mutable-cell construction bridge (`mutable/methods.rs`, `init`):
ignore the arguments and return a fresh cell initialised with `Nil`. -/
def mutableInitBridge (store : List Value) (_args : List Value) :
    List Value × Except BridgeFail Value :=
  let p := mutNew store Value.nil
  (p.1, .ok (.mutable p.2))

/-- The mutable-cell `set` bridge: extract `args[0]` as a `Mutable`, store
`args[1]` in its slot, and return `Nil`. -/
def mutableSetBridge (store : List Value) (args : List Value) :
    List Value × Except BridgeFail Value :=
  match args.get? 0 with
  | none => (store, .error .panicked)
  | some a0 =>
    match tryGetMutable a0 with
    | .error m => (store, .error (.raised m))
    | .ok mutable =>
      match args.get? 1 with
      | none => (store, .error .panicked)
      | some v => (mutSet store mutable v, .ok Value.nil)

/-- The mutable-cell `get` bridge: extract `args[0]` as a `Mutable` and
read its slot. -/
def mutableGetBridge (store : List Value) (args : List Value) :
    Except BridgeFail Value :=
  match args.get? 0 with
  | none => .error .panicked
  | some a0 =>
    match tryGetMutable a0 with
    | .error m => .error (.raised m)
    | .ok mutable =>
      match mutGet store mutable with
      | none => .error .panicked
      | some v => .ok v

/-! ## Operator lowering (`src/front/src/parser/ast.rs`)

The `OpCode` enum itself lives in the `vm` crate outside the provided
sources; its constructors here are exactly the ones the lowering in
`ast.rs` refers to. -/

/-- Bytecode instructions referenced by the operator lowering. -/
inductive OpCode where
  | Less
  | LessEq
  | Not
  | Add
  | Sub
  | Mul
  | Div
  | BitAnd
  | BitOr
  | Xor
  | Shr
  | Shl
  | Eq
  | Neg
  deriving DecidableEq

/-- The surface binary operators (`BinOp` in `ast.rs`). -/
inductive BinOp where
  | Less
  | LessEq
  | Greater
  | GreaterEq
  | Add
  | Sub
  | Mul
  | Div
  | BitAnd
  | BitOr
  | BitXor
  | Shr
  | Shl
  | Eq
  | Ne
  | And
  | Or
  deriving DecidableEq

/-- The surface unary operators (`UnOp` in `ast.rs`). -/
inductive UnOp where
  | Not
  | Neg
  deriving DecidableEq

/-- `From<BinOp> for &[OpCode]`: the flat lowering of a binary operator.
The `unreachable!()` arms for `And`/`Or` (which must instead be compiled
with short-circuit control flow) are modelled as `none`. -/
def binopLowering : BinOp → Option (List OpCode)
  | .Less => some [.Less]
  | .LessEq => some [.LessEq]
  | .Greater => some [.LessEq, .Not]
  | .GreaterEq => some [.Less, .Not]
  | .Add => some [.Add]
  | .Sub => some [.Sub]
  | .Mul => some [.Mul]
  | .Div => some [.Div]
  | .BitAnd => some [.BitAnd]
  | .BitOr => some [.BitOr]
  | .BitXor => some [.Xor]
  | .Shr => some [.Shr]
  | .Shl => some [.Shl]
  | .Eq => some [.Eq]
  | .Ne => some [.Eq, .Not]
  | .And => none
  | .Or => none

/-- `From<UnOp> for &[OpCode]`. -/
def unopLowering : UnOp → List OpCode
  | .Not => [.Not]
  | .Neg => [.Neg]

/-! ## Tokens (`src/front/src/tokens.rs`, not among the provided sources)

The token discriminants are exactly those the provided parser and lowering
code consume; payloads follow the spec (§6: "keyword, punctuation,
literal-with-payload, identifier-with-payload, end-marker" with 1-based
line and column).  `Type` collides with a Lean keyword, hence `TypeKw`. -/

/-- `TokenType` (`Tkt` in the parser). -/
inductive Tkt where
  | Num (n : F64)
  | Str (s : String)
  | Sym (s : Symbol)
  | Name (s : Symbol)
  | True
  | False
  | Nil
  | Let
  | In
  | If
  | Then
  | Else
  | Fn
  | Def
  | TypeKw
  | End
  | New
  | Not
  | Add
  | Sub
  | Mul
  | Div
  | BitAnd
  | BitOr
  | BitXor
  | Shr
  | Shl
  | Less
  | LessEq
  | Greater
  | GreaterEq
  | Eq
  | Ne
  | And
  | Or
  | Cons
  | Seq
  | Assign
  | Dot
  | Comma
  | Lparen
  | Rparen
  | Lbrack
  | Rbrack
  | Eof
  deriving DecidableEq

/-- Modelled from the spec: the `Display` rendering of a token, used only
inside parse-error messages (no claim depends on the exact text). -/
def tokText : Tkt → String
  | .Num n => fShow n
  | .Str s => s
  | .Sym s => toString s
  | .Name s => toString s
  | .True => "true"
  | .False => "false"
  | .Nil => "nil"
  | .Let => "let"
  | .In => "in"
  | .If => "if"
  | .Then => "then"
  | .Else => "else"
  | .Fn => "fn"
  | .Def => "def"
  | .TypeKw => "type"
  | .End => "end"
  | .New => "new"
  | .Not => "not"
  | .Add => "+"
  | .Sub => "-"
  | .Mul => "*"
  | .Div => "/"
  | .BitAnd => "&&&"
  | .BitOr => "|||"
  | .BitXor => "^^^"
  | .Shr => ">>>"
  | .Shl => "<<<"
  | .Less => "<"
  | .LessEq => "<="
  | .Greater => ">"
  | .GreaterEq => ">="
  | .Eq => "=="
  | .Ne => "!="
  | .And => "and"
  | .Or => "or"
  | .Cons => "::"
  | .Seq => ";"
  | .Assign => "="
  | .Dot => "."
  | .Comma => ","
  | .Lparen => "("
  | .Rparen => ")"
  | .Lbrack => "["
  | .Rbrack => "]"
  | .Eof => "<eof>"

/-- `TryFrom<TokenType> for BinOp` (`ast.rs`, lines 67–92). -/
def tktToBinOp : Tkt → Option BinOp
  | .Less => some .Less
  | .LessEq => some .LessEq
  | .Greater => some .Greater
  | .GreaterEq => some .GreaterEq
  | .Add => some .Add
  | .Sub => some .Sub
  | .Mul => some .Mul
  | .Div => some .Div
  | .BitAnd => some .BitAnd
  | .BitOr => some .BitOr
  | .BitXor => some .BitXor
  | .Shr => some .Shr
  | .Shl => some .Shl
  | .Eq => some .Eq
  | .Ne => some .Ne
  | .And => some .And
  | .Or => some .Or
  | _ => none

/-- `TryFrom<TokenType> for UnOp` (`ast.rs`, lines 100–110). -/
def tktToUnOp : Tkt → Option UnOp
  | .Not => some .Not
  | .Sub => some .Neg
  | _ => none

/-- A token: discriminant plus 1-based source position. -/
structure Token where
  token : Tkt
  line : Nat
  column : Nat
  deriving DecidableEq

/-! ## The AST (`src/front/src/parser/ast.rs`) -/

/-- A source location. -/
structure Location where
  line : Nat
  column : Nat
  deriving DecidableEq

/-- A bound name. -/
structure VarDecl where
  name : Symbol
  deriving DecidableEq

/-- AST literals. -/
inductive Literal where
  | num (n : F64)
  | str (s : String)
  | bool (b : Bool)
  | sym (s : Symbol)
  | unit
  deriving DecidableEq

mutual
/-- An expression: a kind plus the location recorded for it. -/
inductive Expr where
  | mk (kind : ExprKind) (location : Location)

/-- The expression kinds of `ExprKind` in `ast.rs` (Lean-keyword clashes
renamed: `If` to `ifE`, `Let` to `letE`, `New` to `newE`). -/
inductive ExprKind where
  | ifE (cond then_ else_ : Expr)
  | letE (binds : List Bind) (body : Expr)
  | lambda (args : List VarDecl) (body : Expr)
  | app (callee : Expr) (args : List Expr)
  | field (obj : Expr) (name : VarDecl)
  | var (s : Symbol)
  | lit (l : Literal)
  | list (xs : List Expr)
  | binary (left : Expr) (op : BinOp) (right : Expr)
  | cons (head tail : Expr)
  | seq (left right : Expr)
  | invoke (obj : Expr) (name : VarDecl) (args : List Expr)
  | unOp (op : UnOp) (e : Expr)
  | newE (ty : Expr) (args : List Expr)

/-- A `let` binding: name, value expression, location. -/
inductive Bind where
  | mk (bind : VarDecl) (value : Expr) (location : Location)
end

/-- The location of an expression (`Expr::line`/`Expr::column`). -/
def Expr.location : Expr → Location
  | .mk _ l => l

/-! ## The expression parser (`src/front/src/parser/mod.rs`)

The parser state is the current token plus the remaining token stream
(`Peekable<Lexer>`); the statement-level productions (`parse`, `type_bind`,
`def_bind`, `def_fn`) are not needed by any claim and are not embedded.
Each production is mirrored as a fueled function: Rust's `while` loops
become tail-recursive `...Loop` helpers, and every recursive call burns one
unit of fuel, so all recursion is structural on the fuel.  Exhausting the
fuel is reported as the distinguished `fuelOut` outcome (never reached on
the inputs used in theorems); exhausting the token stream, which makes the
Rust code panic on `unwrap()`, is the distinguished `panicked` outcome. -/

/-- Parser failures: a located parse error (`ParseError::throw`), a Rust
panic, or fuel exhaustion (a modelling artefact). -/
inductive PFail where
  | err (line column : Nat) (msg : String)
  | panicked
  | fuelOut
  deriving DecidableEq

/-- Parser state: the current token and the unconsumed rest. -/
structure PState where
  current : Token
  rest : List Token
  deriving DecidableEq

/-- The parser monad: state threading over fallible computation. -/
abbrev PM (α : Type) : Type := StateT PState (Except PFail) α

/-- `Parser::next`: pull the next token from the lexer into `current`
(the Rust `unwrap` panics when the stream is exhausted). -/
def pNext : PM Unit := do
  let s ← get
  match s.rest with
  | [] => throw .panicked
  | t :: r => set (PState.mk t r)

/-- `Parser::peek`: look one token ahead without consuming. -/
def pPeek : PM Token := do
  let s ← get
  match s.rest with
  | [] => throw .panicked
  | t :: _ => pure t

/-- `Parser::throw`: a parse error at the current token's position. -/
def pThrow {α : Type} (msg : String) : PM α := do
  let s ← get
  throw (.err s.current.line s.current.column msg)

/-- `Parser::assert`: require the current token to be `expected`. -/
def pAssert (expected : Tkt) : PM Unit := do
  let s ← get
  if s.current.token == expected then pure ()
  else pThrow ("Expected " ++ tokText expected ++ ", found `"
    ++ tokText s.current.token ++ "`")

/-- `Parser::expect`: `assert` then `next`. -/
def pExpect (expected : Tkt) : PM Unit := do
  pAssert expected
  pNext

/-- `Parser::skip`: consume tokens while the current one equals `tokens`. -/
def pSkip (tokens : Tkt) : Nat → PM Unit
  | 0 => throw .fuelOut
  | fuel + 1 => do
    let s ← get
    if s.current.token == tokens then do
      pNext
      pSkip tokens fuel
    else pure ()

/-- `Parser::var_decl`: take the current token, which must be a `Name`,
and advance. -/
def pVarDecl : PM VarDecl := do
  let s ← get
  match s.current.token with
  | .Name id => do
    pNext
    pure ⟨id⟩
  | other => pThrow ("Expected name, found `" ++ tokText other ++ "`")

set_option maxHeartbeats 2000000 in
mutual

/-- `Parser::expr`: a `let`/`if`/`fn` form or the binary-operator tower,
then the right-folded `;`-sequence loop. -/
def pExpr : Nat → PM Expr
  | 0 => throw .fuelOut
  | fuel + 1 => do
    let s ← get
    let first ← match s.current.token with
      | .Let => pLet fuel
      | .If => pCondition fuel
      | .Fn => pFnExpr fuel
      | _ => pLogicOr fuel
    pExprSeqLoop fuel first

/-- The `while self.current.token == Tkt::Seq` loop of `Parser::expr`;
the location written on the `Seq` node is that of the token current after
the right operand was parsed (as in the source). -/
def pExprSeqLoop : Nat → Expr → PM Expr
  | 0, _ => throw .fuelOut
  | fuel + 1, expr => do
    let s ← get
    match s.current.token with
    | .Seq => do
      pNext
      let right ← pExpr fuel
      let s2 ← get
      pExprSeqLoop fuel
        (Expr.mk (.seq expr right) ⟨s2.current.line, s2.current.column⟩)
    | _ => pure expr

/-- `Parser::condition`: `if` cond `then` e1 `else` e2, located at the
token after `if`. -/
def pCondition : Nat → PM Expr
  | 0 => throw .fuelOut
  | fuel + 1 => do
    pExpect .If
    let s ← get
    let line := s.current.line
    let column := s.current.column
    let cond ← pExpr fuel
    pExpect .Then
    let then_ ← pExpr fuel
    pExpect .Else
    let else_ ← pExpr fuel
    pure (Expr.mk (.ifE cond then_ else_) ⟨line, column⟩)

/-- `Parser::args`: a parenthesized, comma-separated, trailing-comma
tolerant parameter-name list. -/
def pArgsP : Nat → PM (List VarDecl)
  | 0 => throw .fuelOut
  | fuel + 1 => do
    pAssert .Lparen
    pNext
    let args ← pArgsLoop fuel []
    pNext
    pure args

/-- The collection loop of `Parser::args`. -/
def pArgsLoop : Nat → List VarDecl → PM (List VarDecl)
  | 0, _ => throw .fuelOut
  | fuel + 1, acc => do
    let s ← get
    match s.current.token with
    | .Rparen => pure acc
    | _ => do
      let var ← pVarDecl
      let acc := acc ++ [var]
      let s2 ← get
      match s2.current.token with
      | .Comma => do
        pSkip .Comma fuel
        pArgsLoop fuel acc
      | .Rparen => pure acc
      | other => pThrow ("Expected `,`, `)` or other token, found `"
          ++ tokText other ++ "`")

/-- `Parser::fn_`: the `fn` keyword then a function literal. -/
def pFnExpr : Nat → PM Expr
  | 0 => throw .fuelOut
  | fuel + 1 => do
    pExpect .Fn
    pFunction fuel

/-- `Parser::function`: parameter list, `=`, body; located at the token
that starts the parameter list. -/
def pFunction : Nat → PM Expr
  | 0 => throw .fuelOut
  | fuel + 1 => do
    let s ← get
    let line := s.current.line
    let column := s.current.column
    let args ← pArgsP fuel
    pExpect .Assign
    let body ← pExpr fuel
    pure (Expr.mk (.lambda args body) ⟨line, column⟩)

/-- `Parser::bind_fn`: a function-shorthand binding `name(params) = body`. -/
def pBindFn : Nat → PM Bind
  | 0 => throw .fuelOut
  | fuel + 1 => do
    let s ← get
    let line := s.current.line
    let column := s.current.column
    match s.current.token with
    | .Name id => do
      pNext
      let value ← pFunction fuel
      pure (Bind.mk ⟨id⟩ value ⟨line, column⟩)
    | other => pThrow ("Expected name, found `" ++ tokText other ++ "`")

/-- `Parser::bind`: a value binding `name = expr`, or a function-shorthand
binding when a `(` follows the name. -/
def pBind : Nat → PM Bind
  | 0 => throw .fuelOut
  | fuel + 1 => do
    let pk ← pPeek
    match pk.token with
    | .Lparen => pBindFn fuel
    | _ => do
      let s ← get
      let line := s.current.line
      let column := s.current.column
      let bind ← pVarDecl
      pExpect .Assign
      let value ← pExpr fuel
      pure (Bind.mk bind value ⟨line, column⟩)

/-- `Parser::let_`: bindings until `in`, then the body; located at the
token after `in`. -/
def pLet : Nat → PM Expr
  | 0 => throw .fuelOut
  | fuel + 1 => do
    pExpect .Let
    let binds ← pLetLoop fuel []
    pNext
    let s ← get
    let line := s.current.line
    let column := s.current.column
    let body ← pExpr fuel
    pure (Expr.mk (.letE binds body) ⟨line, column⟩)

/-- The binding-collection loop of `Parser::let_`. -/
def pLetLoop : Nat → List Bind → PM (List Bind)
  | 0, _ => throw .fuelOut
  | fuel + 1, acc => do
    let s ← get
    match s.current.token with
    | .In => pure acc
    | _ => do
      let pk ← pPeek
      let b ← match pk.token with
        | .Lparen => pBindFn fuel
        | _ => pBind fuel
      pLetLoop fuel (acc ++ [b])

/-- `Parser::logic_or`; the `Binary` node is located at the left operand. -/
def pLogicOr : Nat → PM Expr
  | 0 => throw .fuelOut
  | fuel + 1 => do
    let left ← pLogicAnd fuel
    pLogicOrLoop fuel left

/-- The `or` loop of `Parser::logic_or`. -/
def pLogicOrLoop : Nat → Expr → PM Expr
  | 0, _ => throw .fuelOut
  | fuel + 1, left => do
    let s ← get
    match s.current.token with
    | .Or => do
      pNext
      let right ← pLogicAnd fuel
      pLogicOrLoop fuel
        (Expr.mk (.binary left .Or right) (Expr.location left))
    | _ => pure left

/-- `Parser::logic_and`; the `Binary` node is located at the left
operand. -/
def pLogicAnd : Nat → PM Expr
  | 0 => throw .fuelOut
  | fuel + 1 => do
    let left ← pEq fuel
    pLogicAndLoop fuel left

/-- The `and` loop of `Parser::logic_and`. -/
def pLogicAndLoop : Nat → Expr → PM Expr
  | 0, _ => throw .fuelOut
  | fuel + 1, left => do
    let s ← get
    match s.current.token with
    | .And => do
      pNext
      let right ← pEq fuel
      pLogicAndLoop fuel
        (Expr.mk (.binary left .And right) (Expr.location left))
    | _ => pure left

/-- `Parser::eq`; `Binary` nodes are located at the operator token.
(`try_into().unwrap()` on a token the `while let` matched cannot fail;
the `getD` default is never used.) -/
def pEq : Nat → PM Expr
  | 0 => throw .fuelOut
  | fuel + 1 => do
    let left ← pCmp fuel
    pEqLoop fuel left

/-- The `==`/`!=` loop of `Parser::eq`. -/
def pEqLoop : Nat → Expr → PM Expr
  | 0, _ => throw .fuelOut
  | fuel + 1, left => do
    let s ← get
    match s.current.token with
    | .Eq | .Ne => do
      let op := s.current
      pNext
      let right ← pCmp fuel
      pEqLoop fuel
        (Expr.mk (.binary left ((tktToBinOp op.token).getD .Eq) right)
          ⟨op.line, op.column⟩)
    | _ => pure left

/-- `Parser::cmp`; `Binary` nodes are located at the operator token. -/
def pCmp : Nat → PM Expr
  | 0 => throw .fuelOut
  | fuel + 1 => do
    let left ← pConsE fuel
    pCmpLoop fuel left

/-- The relational-operator loop of `Parser::cmp`. -/
def pCmpLoop : Nat → Expr → PM Expr
  | 0, _ => throw .fuelOut
  | fuel + 1, left => do
    let s ← get
    match s.current.token with
    | .Less | .LessEq | .Greater | .GreaterEq => do
      let op := s.current
      pNext
      let right ← pConsE fuel
      pCmpLoop fuel
        (Expr.mk (.binary left ((tktToBinOp op.token).getD .Eq) right)
          ⟨op.line, op.column⟩)
    | _ => pure left

/-- `Parser::cons` (`::` is right-associative: the right operand re-enters
`cons`); nodes are located at the operator token. -/
def pConsE : Nat → PM Expr
  | 0 => throw .fuelOut
  | fuel + 1 => do
    let left ← pBitwise fuel
    pConsLoop fuel left

/-- The `::` loop of `Parser::cons`. -/
def pConsLoop : Nat → Expr → PM Expr
  | 0, _ => throw .fuelOut
  | fuel + 1, left => do
    let s ← get
    match s.current.token with
    | .Cons => do
      let op := s.current
      pNext
      let right ← pConsE fuel
      pConsLoop fuel (Expr.mk (.cons left right) ⟨op.line, op.column⟩)
    | _ => pure left

/-- `Parser::bitwise`; nodes are located at the operator token. -/
def pBitwise : Nat → PM Expr
  | 0 => throw .fuelOut
  | fuel + 1 => do
    let left ← pTerm fuel
    pBitwiseLoop fuel left

/-- The bitwise-operator loop of `Parser::bitwise`. -/
def pBitwiseLoop : Nat → Expr → PM Expr
  | 0, _ => throw .fuelOut
  | fuel + 1, left => do
    let s ← get
    match s.current.token with
    | .BitOr | .BitAnd | .BitXor | .Shr | .Shl => do
      let op := s.current
      pNext
      let right ← pTerm fuel
      pBitwiseLoop fuel
        (Expr.mk (.binary left ((tktToBinOp op.token).getD .Eq) right)
          ⟨op.line, op.column⟩)
    | _ => pure left

/-- `Parser::term` (additive); nodes are located at the operator token. -/
def pTerm : Nat → PM Expr
  | 0 => throw .fuelOut
  | fuel + 1 => do
    let left ← pFact fuel
    pTermLoop fuel left

/-- The `+`/`-` loop of `Parser::term`. -/
def pTermLoop : Nat → Expr → PM Expr
  | 0, _ => throw .fuelOut
  | fuel + 1, left => do
    let s ← get
    match s.current.token with
    | .Add | .Sub => do
      let op := s.current
      pNext
      let right ← pFact fuel
      pTermLoop fuel
        (Expr.mk (.binary left ((tktToBinOp op.token).getD .Eq) right)
          ⟨op.line, op.column⟩)
    | _ => pure left

/-- `Parser::fact` (multiplicative); nodes are located at the operator
token. -/
def pFact : Nat → PM Expr
  | 0 => throw .fuelOut
  | fuel + 1 => do
    let left ← pPrefixExpr fuel
    pFactLoop fuel left

/-- The `*`/`/` loop of `Parser::fact`. -/
def pFactLoop : Nat → Expr → PM Expr
  | 0, _ => throw .fuelOut
  | fuel + 1, left => do
    let s ← get
    match s.current.token with
    | .Mul | .Div => do
      let op := s.current
      pNext
      let right ← pPrefixExpr fuel
      pFactLoop fuel
        (Expr.mk (.binary left ((tktToBinOp op.token).getD .Eq) right)
          ⟨op.line, op.column⟩)
    | _ => pure left

/-- `Parser::prefix`: unary `-`/`not` (right-recursive), otherwise fall
through to instantiation. -/
def pPrefixExpr : Nat → PM Expr
  | 0 => throw .fuelOut
  | fuel + 1 => do
    let s ← get
    match s.current.token with
    | .Sub | .Not => do
      let op := s.current
      pNext
      let right ← pPrefixExpr fuel
      pure (Expr.mk (.unOp ((tktToUnOp op.token).getD .Neg) right)
        ⟨op.line, op.column⟩)
    | _ => pInstanceExpr fuel

/-- `Parser::instance`: `new` followed by a primary type expression and a
parenthesized argument list, otherwise fall through to the dot chain. -/
def pInstanceExpr : Nat → PM Expr
  | 0 => throw .fuelOut
  | fuel + 1 => do
    let s ← get
    match s.current.token with
    | .New => do
      let op := s.current
      pNext
      let ty ← pPrimary fuel
      pNext
      pAssert .Lparen
      let args ← pCallArgs fuel
      pure (Expr.mk (.newE ty args) ⟨op.line, op.column⟩)
    | _ => pDot fuel

/-- `Parser::dot`: a call followed by a chain of dot accesses. -/
def pDot : Nat → PM Expr
  | 0 => throw .fuelOut
  | fuel + 1 => do
    let obj ← pCall fuel
    pDotLoop fuel obj

/-- The `.` loop of `Parser::dot`. -/
def pDotLoop : Nat → Expr → PM Expr
  | 0, _ => throw .fuelOut
  | fuel + 1, obj => do
    let s ← get
    match s.current.token with
    | .Dot => do
      let obj2 ← pDotAccess fuel obj
      pDotLoop fuel obj2
    | _ => pure obj

/-- `Parser::dot_access`: a field read, or a method invocation when a `(`
follows the field name; located at the dot token. -/
def pDotAccess : Nat → Expr → PM Expr
  | 0, _ => throw .fuelOut
  | fuel + 1, obj => do
    let s ← get
    let line := s.current.line
    let column := s.current.column
    pNext
    let field ← pVarDecl
    let s2 ← get
    match s2.current.token with
    | .Lparen => do
      let args ← pCallArgs fuel
      pure (Expr.mk (.invoke obj field args) ⟨line, column⟩)
    | _ => pure (Expr.mk (.field obj field) ⟨line, column⟩)

/-- `Parser::call_args`: a parenthesized, comma-separated, trailing-comma
tolerant expression list. -/
def pCallArgs : Nat → PM (List Expr)
  | 0 => throw .fuelOut
  | fuel + 1 => do
    pNext
    let args ← pCallArgsLoop fuel []
    pNext
    pure args

/-- The collection loop of `Parser::call_args`. -/
def pCallArgsLoop : Nat → List Expr → PM (List Expr)
  | 0, _ => throw .fuelOut
  | fuel + 1, acc => do
    let s ← get
    match s.current.token with
    | .Rparen => pure acc
    | _ => do
      let arg ← pExpr fuel
      let acc := acc ++ [arg]
      let s2 ← get
      match s2.current.token with
      | .Comma => do
        pSkip .Comma fuel
        pCallArgsLoop fuel acc
      | .Rparen => pure acc
      | other => pThrow ("Expected `,`, `)` or other token, found `"
          ++ tokText other ++ "`")

/-- `Parser::call`: a primary expression (advancing past it), then a chain
of argument lists; `App` nodes are located at the callee. -/
def pCall : Nat → PM Expr
  | 0 => throw .fuelOut
  | fuel + 1 => do
    let callee ← pPrimary fuel
    pNext
    pCallLoop fuel callee

/-- The application loop of `Parser::call`. -/
def pCallLoop : Nat → Expr → PM Expr
  | 0, _ => throw .fuelOut
  | fuel + 1, callee => do
    let s ← get
    match s.current.token with
    | .Lparen => do
      let args ← pCallArgs fuel
      pCallLoop fuel
        (Expr.mk (.app callee args) (Expr.location callee))
    | _ => pure callee

/-- `Parser::list`: a comma-separated, trailing-comma tolerant expression
list terminated by `]` (which the caller consumes); located at the token
after `[`. -/
def pListLit : Nat → PM Expr
  | 0 => throw .fuelOut
  | fuel + 1 => do
    let s ← get
    let line := s.current.line
    let column := s.current.column
    let exprs ← pListLitLoop fuel []
    pure (Expr.mk (.list exprs) ⟨line, column⟩)

/-- The collection loop of `Parser::list`. -/
def pListLitLoop : Nat → List Expr → PM (List Expr)
  | 0, _ => throw .fuelOut
  | fuel + 1, acc => do
    let s ← get
    match s.current.token with
    | .Rbrack => pure acc
    | _ => do
      let e ← pExpr fuel
      let acc := acc ++ [e]
      let s2 ← get
      match s2.current.token with
      | .Comma => do
        pSkip .Comma fuel
        pListLitLoop fuel acc
      | .Rbrack => pure acc
      | other => pThrow ("Expected `,`, `]` or other token, found `"
          ++ tokText other ++ "`")

/-- `Parser::primary`: literals, names, bracketed lists, parenthesized
expressions; does not advance past single-token forms (the caller does). -/
def pPrimary : Nat → PM Expr
  | 0 => throw .fuelOut
  | fuel + 1 => do
    let s ← get
    let line := s.current.line
    let column := s.current.column
    match s.current.token with
    | .Num n => pure (Expr.mk (.lit (.num n)) ⟨line, column⟩)
    | .Str str => pure (Expr.mk (.lit (.str str)) ⟨line, column⟩)
    | .True => pure (Expr.mk (.lit (.bool true)) ⟨line, column⟩)
    | .False => pure (Expr.mk (.lit (.bool false)) ⟨line, column⟩)
    | .Name name => pure (Expr.mk (.var name) ⟨line, column⟩)
    | .Sym sym => pure (Expr.mk (.lit (.sym sym)) ⟨line, column⟩)
    | .Lbrack => do
      pNext
      pListLit fuel
    | .Lparen => do
      pNext
      let expr ← pExpr fuel
      pAssert .Rparen
      pure expr
    | .Nil => pure (Expr.mk (.lit .unit) ⟨line, column⟩)
    | other => pThrow ("unexpected token `" ++ tokText other ++ "`")

end

/-- `Parser::new`: prime `current` with the first token of the stream. -/
def mkPState : List Token → Except PFail PState
  | [] => .error .panicked
  | t :: r => .ok (PState.mk t r)

/-- `Parser::parse_expr` on a token stream: build the parser, then run
`expr`. -/
def parseExprRun (fuel : Nat) (toks : List Token) :
    Except PFail (Expr × PState) := do
  let s ← mkPState toks
  (pExpr fuel).run s

/-! ## General lemmas about the list operations -/

/-- `to_vec` materializes exactly the structural content. -/
theorem lToVec_eq (l : List Value) : lToVec l = l := by
  induction l with
  | nil => rfl
  | cons x t ih => simp [lToVec, ih]

/-- The prepend-fold underlying `FromIterator` reverses onto its
accumulator. -/
theorem foldl_prepend_eq (items : List Value) :
    ∀ acc, items.foldl (fun list item => lPrepend list item) acc
      = items.reverse ++ acc := by
  induction items with
  | nil => intro acc; simp
  | cons x t ih => intro acc; simp [lPrepend, ih (x :: acc)]

/-- `FromIterator` builds the reversed sequence. -/
theorem lFromIter_eq (items : List Value) :
    lFromIter items = items.reverse := by
  simpa using foldl_prepend_eq items []

/-- The rev-loop reverses onto its accumulator. -/
theorem lRevAux_eq (l : List Value) :
    ∀ acc, lRevAux l acc = l.reverse ++ acc := by
  induction l with
  | nil => intro acc; simp [lRevAux]
  | cons x t ih => intro acc; simp [lRevAux, lPrepend, ih (x :: acc)]

/-- `List::rev` is reversal. -/
theorem lRev_eq (l : List Value) : lRev l = l.reverse := by
  simpa using lRevAux_eq l []

/-- `rev` after `collect` restores iteration order. -/
theorem lRev_lFromIter (items : List Value) :
    lRev (lFromIter items) = items := by
  simp [lRev_eq, lFromIter_eq]

/-- Reading back the slot just written (for an in-range index). -/
theorem get?_set_self {α : Type} (l : List α) (n : Nat) (v : α)
    (h : n < l.length) : (l.set n v).get? n = some v := by
  induction l generalizing n with
  | nil => simp at h
  | cons x t ih =>
    cases n with
    | zero => rfl
    | succ m =>
      simp only [List.set, List.get?]
      exact ih m (by simpa using h)

/-! ## Claim C1 — the string split bridge -/

/-- C1, counterexample: with subject `"a,b,,c"` and separator `","` the
split bridge returns `["a", "b", "c"]` — the segments in split order — and
not the claimed reversed list `["c", "b", "a"]`.  (The `collect` into a yex
list does reverse, but the bridge then calls `.rev()`, which restores split
order.) -/
theorem C1_split_reverse_order_cex :
    splitBridge [.str "a,b,,c", .str ","] ≠
      .ok (.list [.str "c", .str "b", .str "a"]) := by
  intro h
  rw [show splitBridge [.str "a,b,,c", .str ","] =
    .ok (.list [.str "a", .str "b", .str "c"]) from rfl] at h
  simp at h

/-- C1, amended: calling the string split bridge with a string subject and
a string separator trims the subject, splits it by the separator, drops
empty segments, and returns the segments as a list in split order (not
reversed); in particular, for subject `"a,b,,c"` and separator `","` the
result is the list `["a", "b", "c"]`. -/
theorem C1_split_bridge_order :
    (∀ s pat : String, splitBridge [.str s, .str pat] =
      .ok (.list (((rustSplit (rustTrim s) pat).map Value.str).filter
        strNonempty)))
    ∧ splitBridge [.str "a,b,,c", .str ","] =
      .ok (.list [.str "a", .str "b", .str "c"]) := by
  refine ⟨fun s pat => ?_, rfl⟩
  simp [splitBridge, tryGetString, lRev_lFromIter]

/-! ## Claim C4 — operator lowering -/

/-- C4: the flat lowering emits `LessEq` for `<=`; `[LessEq, Not]` for `>`;
`[Less, Not]` for `>=`; `[Eq, Not]` for `!=`; has no flat lowering for
logical `and`/`or` (the `unreachable!` arms, modelled as `none`) and maps
every other operator to one or two instructions. -/
theorem C4_binop_lowering :
    binopLowering .LessEq = some [.LessEq]
    ∧ binopLowering .Greater = some [.LessEq, .Not]
    ∧ binopLowering .GreaterEq = some [.Less, .Not]
    ∧ binopLowering .Ne = some [.Eq, .Not]
    ∧ binopLowering .And = none
    ∧ binopLowering .Or = none
    ∧ (∀ op : BinOp, binopLowering op = none ↔ (op = .And ∨ op = .Or))
    ∧ (∀ op : BinOp, Option.elim (binopLowering op)
        (op = BinOp.And ∨ op = BinOp.Or)
        (fun instrs => instrs.length = 1 ∨ instrs.length = 2)) := by
  refine ⟨rfl, rfl, rfl, rfl, rfl, rfl, fun op => ?_, fun op => ?_⟩
  · cases op <;> simp [binopLowering]
  · cases op <;> simp [binopLowering]

/-! ## Claim C5 — out-of-range indexing returns nil -/

/-- C5: for every list and every index at or past the list's length,
`List::index` returns `nil` (and, being a total function in this model,
never fails or panics). -/
theorem C5_index_out_of_range (l : List Value) (n : Nat)
    (h : lLen l ≤ n) : lIndex l n = Value.nil := by
  induction l generalizing n with
  | nil =>
    cases n with
    | zero => rfl
    | succ m => rfl
  | cons x t ih =>
    cases n with
    | zero => simp [lLen] at h
    | succ m =>
      show (if lIsEmpty (lTail (x :: t)) then Value.nil else lIndex (lTail (x :: t)) m)
        = Value.nil
      cases t with
      | nil => rfl
      | cons y u =>
        simp only [lTail, lIsEmpty, List.isEmpty_cons, if_neg Bool.false_ne_true]
        exact ih m (by simp [lLen] at h ⊢; omega)

/-- C5, witness: the two-element list `[1, "x"]` indexed at 5 yields
`nil`. -/
theorem C5_index_out_of_range_witness :
    lLen [Value.num (.fin 1), Value.str "x"] ≤ 5
    ∧ lIndex [Value.num (.fin 1), Value.str "x"] 5 = Value.nil :=
  ⟨by decide, C5_index_out_of_range [Value.num (.fin 1), Value.str "x"] 5
    (by decide)⟩

/-! ## Claim C8 — mutable-cell round trip and shared slot -/

/-- C8: for every store, initial value and value `v`: allocating a cell,
setting it to `v`, then getting it, returns `v`; and the derived clone of a
cell copies the raw pointer, so a write through the original is observed
through the clone and a write through the clone is observed through the
original (identity, not value, semantics). -/
theorem C8_mutable_cell (store : List Value) (w v : Value) :
    mutGet (mutSet (mutNew store w).1 (mutNew store w).2 v)
      (mutNew store w).2 = some v
    ∧ mutGet (mutSet (mutNew store w).1 (mClone (mutNew store w).2) v)
      (mutNew store w).2 = some v
    ∧ mutGet (mutSet (mutNew store w).1 (mutNew store w).2 v)
      (mClone (mutNew store w).2) = some v := by
  have hlen : store.length < (store ++ [w]).length := by
    simp
  refine ⟨?_, ?_, ?_⟩ <;>
    exact get?_set_self (store ++ [w]) store.length v hlen

/-! ## Claim C9 — FromIterator order -/

/-- C9: collecting a finite sequence of values into a yex list produces a
list whose front-to-back content is the reverse of the iteration order. -/
theorem C9_from_iter_reverses (items : List Value) :
    lToVec (lFromIter items) = items.reverse := by
  simp [lToVec_eq, lFromIter_eq]

/-! ## Claim C10 — the mutable-cell construction and set bridges -/

/-- C10: the construction bridge ignores its arguments and returns a fresh
cell whose slot holds `nil`; the set bridge, when its first argument
extracts as a mutable cell and a second argument is present, stores that
second argument in the cell's slot and returns `nil` as its result
value. -/
theorem C10_mutable_bridges :
    (∀ store args : List Value,
      mutableInitBridge store args =
        (store ++ [Value.nil], .ok (.mutable ⟨store.length⟩))
      ∧ mutGet (mutableInitBridge store args).1 ⟨store.length⟩ =
        some Value.nil)
    ∧ (∀ (store args : List Value) (m : Mutable) (v : Value),
      args.get? 0 = some (.mutable m) → args.get? 1 = some v →
      mutableSetBridge store args = (mutSet store m v, .ok Value.nil)) := by
  constructor
  · intro store args
    refine ⟨rfl, ?_⟩
    show (store ++ [Value.nil]).get? store.length = some Value.nil
    rw [List.get?_eq_getElem?, List.getElem?_concat_length]
  · intro store args m v h0 h1
    simp only [mutableSetBridge, h0, h1, tryGetMutable]

/-- C10, witness: a concrete store and argument vector exercising both
bridges. -/
theorem C10_mutable_bridges_witness :
    mutableInitBridge [] [] = ([Value.nil], .ok (.mutable ⟨0⟩))
    ∧ mutableSetBridge [Value.nil] [.mutable ⟨0⟩, .num (.fin 2)] =
      (mutSet [Value.nil] ⟨0⟩ (.num (.fin 2)), .ok Value.nil) :=
  ⟨(C10_mutable_bridges.1 [] []).1,
    C10_mutable_bridges.2 [Value.nil] [.mutable ⟨0⟩, .num (.fin 2)] ⟨0⟩
      (.num (.fin 2)) rfl rfl⟩

/-! ## Lemmas about `Value` equality (for claim C2) -/

/-- `==` from a lawful `BEq` is symmetric. -/
theorem beqComm {α : Type} [BEq α] [LawfulBEq α] (a b : α) :
    (a == b) = (b == a) := by
  by_cases h : a = b
  · subst h; rfl
  · rw [beq_eq_false_iff_ne.mpr h, beq_eq_false_iff_ne.mpr (Ne.symm h)]

/-- `f64` equality is symmetric (also at `NaN`, where both sides are
`false`). -/
theorem feq_symm (x y : F64) : feq x y = feq y x := by
  cases x <;> cases y <;> simp [feq, beqComm]

mutual
/-- The derived value equality is symmetric. -/
theorem valueEq_symm (a b : Value) : valueEq a b = valueEq b a := by
  cases a <;> cases b <;>
    first
      | (simp only [valueEq]; exact valueListEq_symm _ _)
      | simp [valueEq, feq_symm, beqComm]

/-- Element-wise list equality is symmetric. -/
theorem valueListEq_symm (xs ys : List Value) :
    valueListEq xs ys = valueListEq ys xs := by
  cases xs with
  | nil => cases ys <;> simp [valueListEq]
  | cons x t =>
    cases ys with
    | nil => simp [valueListEq]
    | cons y u =>
      simp only [valueListEq]
      rw [valueEq_symm x y, valueListEq_symm t u]
end

mutual
/-- The derived value equality is reflexive on `NaN`-free values. -/
theorem valueEq_refl (a : Value) (h : nanFree a = true) :
    valueEq a a = true := by
  cases a with
  | num n =>
    cases n with
    | nan => simp [nanFree] at h
    | fin q => simp [valueEq, feq]
  | list xs =>
    simp only [valueEq]
    exact valueListEq_refl xs (by simpa [nanFree] using h)
  | _ => simp [valueEq]

/-- Element-wise list equality is reflexive on `NaN`-free lists. -/
theorem valueListEq_refl (xs : List Value) (h : nanFreeList xs = true) :
    valueListEq xs xs = true := by
  cases xs with
  | nil => rfl
  | cons x t =>
    simp only [nanFreeList, Bool.and_eq_true] at h
    simp only [valueListEq, Bool.and_eq_true]
    exact ⟨valueEq_refl x h.1, valueListEq_refl t h.2⟩
end

/-- Values with different tags are never equal. -/
theorem valueEq_cross_tag (a b : Value) (h : tagOf a ≠ tagOf b) :
    valueEq a b = false := by
  cases a <;> cases b <;> simp_all [valueEq, tagOf]

/-! ## Claim C2 — value equality -/

/-- C2, counterexample: the value `Num(NaN)` does not equal itself under
the derived `PartialEq` (because `f64` equality rejects `NaN = NaN`), so
runtime-value equality is not reflexive on every value.  `NaN` is reachable
at runtime (e.g. `0.0 / 0.0` under the `Div` impl). -/
theorem C2_value_eq_not_reflexive_cex :
    valueEq (.num .nan) (.num .nan) = false := rfl

/-- C2, amended: runtime-value equality is reflexive on every value that
contains no `NaN` number (also inside lists); it is symmetric on all
values; and cross-tag comparisons are always false. -/
theorem C2_value_eq_props :
    (∀ a : Value, nanFree a = true → valueEq a a = true)
    ∧ (∀ a b : Value, valueEq a b = valueEq b a)
    ∧ (∀ a b : Value, tagOf a ≠ tagOf b → valueEq a b = false) :=
  ⟨valueEq_refl, valueEq_symm, valueEq_cross_tag⟩

/-- C2, witness: reflexivity at a concrete `NaN`-free value and a concrete
cross-tag comparison (number vs. string). -/
theorem C2_value_eq_props_witness :
    nanFree (Value.str "a") = true
    ∧ valueEq (.str "a") (.str "a") = true
    ∧ tagOf (Value.num (.fin 1)) ≠ tagOf (Value.str "a")
    ∧ valueEq (.num (.fin 1)) (.str "a") = false :=
  ⟨rfl, C2_value_eq_props.1 (.str "a") rfl, by decide,
    C2_value_eq_props.2.2 (.num (.fin 1)) (.str "a") (by decide)⟩

/-! ## Claim C3 — ordering comparison -/

/-- C3, counterexample: `ord_cmp` on the number pair `(NaN, NaN)` does not
succeed — it raises `"Error applying cmp"` (`partial_cmp` returns `None`),
so the comparison does not return an ordering for every pair of number
values. -/
theorem C3_ord_cmp_nan_cex :
    ordCmp (.num .nan) (.num .nan) = .error "Error applying cmp"
    ∧ (ordCmp (.num .nan) (.num .nan)).isOk = false := ⟨rfl, rfl⟩

/-- C3, amended: `ord_cmp` succeeds and returns the ordering for every
pair of non-`NaN` number values; on number pairs involving `NaN` it fails
with `"Error applying cmp"`; and on every pair with a non-number operand it
fails with a type error naming both operand renderings. -/
theorem C3_ord_cmp :
    (∀ p q : ℚ, ordCmp (.num (.fin p)) (.num (.fin q)) = .ok (compare p q))
    ∧ (∀ x : F64, ordCmp (.num .nan) (.num x) = .error "Error applying cmp"
        ∧ ordCmp (.num x) (.num .nan) = .error "Error applying cmp")
    ∧ (∀ a b : Value, isNum a = false ∨ isNum b = false →
        ordCmp a b = .error ("Can't compare `" ++ display a ++ "` and `"
          ++ display b ++ "`")) := by
  refine ⟨fun p q => rfl, fun x => ⟨?_, ?_⟩, fun a b h => ?_⟩
  · cases x <;> rfl
  · cases x <;> rfl
  · cases a <;> cases b <;> simp_all [ordCmp, isNum]

/-- C3, witness: a concrete finite-number comparison and a concrete
string-vs-number type error. -/
theorem C3_ord_cmp_witness :
    (isNum (Value.str "a") = false ∨ isNum (Value.num (.fin 1)) = false)
    ∧ ordCmp (.str "a") (.num (.fin 1)) =
      .error ("Can't compare `" ++ display (Value.str "a") ++ "` and `"
        ++ display (Value.num (.fin 1)) ++ "`")
    ∧ ordCmp (.num (.fin 1)) (.num (.fin 2)) = .ok (compare (1 : ℚ) 2) :=
  ⟨Or.inl rfl, C3_ord_cmp.2.2 (.str "a") (.num (.fin 1)) (Or.inl rfl),
    C3_ord_cmp.1 1 2⟩

/-! ## Lemmas about the node store (for claim C6) -/

/-- Following an empty link yields no elements, for any fuel. -/
theorem denoteFuel_none (f : Nat) (h : List HNode) :
    denoteFuel f h none = [] := by cases f <;> rfl

/-- `getD` agrees with a successful `get?`. -/
theorem getD_of_get? (h : List HNode) (a : Nat) (nd : HNode)
    (hh : h.get? a = some nd) : h.getD a dfltNode = nd := by
  induction h generalizing a with
  | nil => simp at hh
  | cons x t ih =>
    cases a with
    | zero => simp_all [List.getD]
    | succ m => simpa [List.getD] using ih m (by simpa using hh)

/-- A successful `get?` address is in range. -/
theorem get?_lt_length (h : List HNode) (a : Nat) (nd : HNode)
    (hh : h.get? a = some nd) : a < h.length := by
  by_contra hcon
  rw [List.get?_eq_none.mpr (by omega)] at hh
  exact Option.noConfusion hh

/-- In a well-formed store, `next` links point strictly downwards. -/
theorem wf_next_lt {h : List HNode} (hwf : HeapWf h) {a b : Nat}
    {nd : HNode} (ha : h.get? a = some nd) (hb : nd.next = some b) :
    b < a := by
  have halen := get?_lt_length h a nd ha
  have := hwf a halen
  rw [getD_of_get? h a nd ha] at this
  rw [nodeOkB, hb] at this
  exact of_decide_eq_true this

/-- Frame property: allocating a fresh node does not change the content
reachable from any link into the old store. -/
theorem denoteFuel_append {h : List HNode} (hwf : HeapWf h) (nd : HNode) :
    ∀ (f a : Nat), a < h.length →
      denoteFuel f (h ++ [nd]) (some a) = denoteFuel f h (some a) := by
  intro f
  induction f with
  | zero => intro a _; rfl
  | succ f ih =>
    intro a ha
    have hget : (h ++ [nd]).get? a = h.get? a := by
      simp [List.get?_eq_getElem?, List.getElem?_append_left ha]
    simp only [denoteFuel, hget]
    cases hnode : h.get? a with
    | none => rfl
    | some node =>
      dsimp only
      cases hnext : node.next with
      | none => simp [denoteFuel_none]
      | some b =>
        have hb : b < a := wf_next_lt hwf hnode hnext
        rw [ih b (by omega)]

/-- In a well-formed store any fuel above the starting address computes the
same content (the addresses on a chain strictly decrease). -/
theorem denoteFuel_fuel {h : List HNode} (hwf : HeapWf h) :
    ∀ a, a < h.length → ∀ f g, a < f → a < g →
      denoteFuel f h (some a) = denoteFuel g h (some a) := by
  intro a
  induction a using Nat.strong_induction_on with
  | _ a ih =>
    intro ha f g hf hg
    obtain ⟨f', rfl⟩ : ∃ f', f = f' + 1 := ⟨f - 1, by omega⟩
    obtain ⟨g', rfl⟩ : ∃ g', g = g' + 1 := ⟨g - 1, by omega⟩
    simp only [denoteFuel]
    cases hnode : h.get? a with
    | none => rfl
    | some node =>
      dsimp only
      cases hnext : node.next with
      | none => simp [denoteFuel_none]
      | some b =>
        have hb : b < a := wf_next_lt hwf hnode hnext
        rw [ih b hb (by omega) f' g' (by omega) (by omega)]

/-! ## Claim C6 — prepend/tail persistence and structural sharing -/

/-- C6: in any well-formed node store, for any list (head link) `l` and
value `x`: the tail of `l.prepend(x)` is the very same head link `l`
(hence structurally equal to the original list); the prepend did not
change the content of the original list (its denotation in the grown store
is unchanged — persistence); and therefore the tail of the prepended list
denotes exactly the original content. -/
theorem C6_prepend_tail_persistent (h : List HNode) (l : Option Nat)
    (x : Value) (hwf : HeapWf h) (hl : LinkValid h l) :
    tailH (prependH h l x).1 (prependH h l x).2 = l
    ∧ denote (prependH h l x).1 l = denote h l
    ∧ denote (prependH h l x).1
        (tailH (prependH h l x).1 (prependH h l x).2) = denote h l := by
  have htail : tailH (h ++ [(⟨x, l⟩ : HNode)]) (some h.length) = l := by
    simp only [tailH]
    rw [List.get?_eq_getElem?, List.getElem?_concat_length]
  have hpre : denote (prependH h l x).1 l = denote h l := by
    cases l with
    | none => simp [denote, denoteFuel_none]
    | some a =>
      have ha : a < h.length := hl
      simp only [denote, prependH, List.length_append, List.length_cons,
        List.length_nil]
      rw [denoteFuel_append hwf _ _ a ha]
      exact denoteFuel_fuel hwf a ha _ _ (by omega) (by omega)
  exact ⟨htail, hpre, by rw [show (prependH h l x).2 = some h.length from rfl,
    show (prependH h l x).1 = h ++ [(⟨x, l⟩ : HNode)] from rfl, htail]; exact hpre⟩

/-- C6, witness: a one-node store holding the list `[1]`. -/
theorem C6_prepend_tail_persistent_witness :
    HeapWf [({ elem := Value.num (.fin 1), next := none } : HNode)]
    ∧ tailH (prependH [({ elem := Value.num (.fin 1), next := none } : HNode)]
        (some 0) Value.nil).1
      (prependH [({ elem := Value.num (.fin 1), next := none } : HNode)]
        (some 0) Value.nil).2 = some 0
    ∧ denote (prependH [({ elem := Value.num (.fin 1), next := none } : HNode)]
        (some 0) Value.nil).1 (some 0)
      = denote [({ elem := Value.num (.fin 1), next := none } : HNode)]
        (some 0) :=
  ⟨by decide,
    (C6_prepend_tail_persistent
      [({ elem := Value.num (.fin 1), next := none } : HNode)] (some 0)
      Value.nil (by decide) (by simp [LinkValid])).1,
    (C6_prepend_tail_persistent
      [({ elem := Value.num (.fin 1), next := none } : HNode)] (some 0)
      Value.nil (by decide) (by simp [LinkValid])).2.1⟩

/-! ## Claim C7 — parser precedence -/

/-- C7: the token sequence of `"1 + 2 * 3"` (with its 1-based source
columns) parses as `Binary(Add, Lit(1), Binary(Mul, Lit(2), Lit(3)))` —
multiplication binds tighter than addition — consuming the stream up to the
end-of-input marker. -/
theorem C7_precedence_mul_binds_tighter :
    parseExprRun 30
      [⟨.Num (.fin 1), 1, 1⟩, ⟨.Add, 1, 3⟩, ⟨.Num (.fin 2), 1, 5⟩,
        ⟨.Mul, 1, 7⟩, ⟨.Num (.fin 3), 1, 9⟩, ⟨.Eof, 1, 10⟩] =
      .ok (.mk (.binary (.mk (.lit (.num (.fin 1))) ⟨1, 1⟩) .Add
        (.mk (.binary (.mk (.lit (.num (.fin 2))) ⟨1, 5⟩) .Mul
          (.mk (.lit (.num (.fin 3))) ⟨1, 9⟩)) ⟨1, 7⟩)) ⟨1, 3⟩,
        ⟨⟨.Eof, 1, 10⟩, []⟩) := rfl

end Yex
